import Mathlib

/-
Verification of the real-time ingestion → aggregation → broadcast pipeline of the
cryptocurrency dashboard backend (NestJS).

Shallow embedding of:
- the symbol registry (finnhub-message.interface: SYMBOL_MAPPING / REVERSE_SYMBOL_MAPPING),
- the data model and DataService (data.service.ts: getPairBySymbol, savePrice,
  calculateHourlyAverage, hourly-average upsert),
- the FinnhubService feed client (finnhub.service: processTrades, handleOpen,
  handleClose, scheduleReconnect, reconnect),
- the CryptoGateway fan-out hub (crypto.gateway: connection registry, subscription
  bookkeeping, broadcastPriceUpdate with ISO-8601 timestamp serialization).

Conventions: JS numbers carrying prices are modelled as exact rationals (ℚ);
timestamps are epoch milliseconds (Int); the Prisma store is a Db record of lists;
a thrown exception is an `Except.error`; `Date.prototype.toISOString` is implemented
concretely (proleptic Gregorian, UTC).
-/

namespace CryptoDash

/-- Mapping of internal symbols to Finnhub symbols (SYMBOL_MAPPING). -/
def SYMBOL_MAPPING : List (String × String) :=
  [("ETH/USDC", "BINANCE:ETHUSDC"),
   ("ETH/USDT", "BINANCE:ETHUSDT"),
   ("ETH/BTC", "BINANCE:ETHBTC")]

/-- Reverse mapping from Finnhub symbols to internal symbols
(REVERSE_SYMBOL_MAPPING); a record lookup that misses yields `none`
(the source's falsy check `!ourSymbol`). -/
def REVERSE_SYMBOL_MAPPING (s : String) : Option String :=
  if s = "BINANCE:ETHUSDC" then some "ETH/USDC"
  else if s = "BINANCE:ETHUSDT" then some "ETH/USDT"
  else if s = "BINANCE:ETHBTC" then some "ETH/BTC"
  else none

/-- A crypto pair row (model CryptoPair; fields not read by the verified code paths
are omitted). -/
structure Pair where
  id : Nat
  symbol : String
  isActive : Bool
deriving Repr, DecidableEq

/-- A persisted price tick (model Price). -/
structure Tick where
  pairId : Nat
  price : ℚ
  volume : Option ℚ
  timestamp : Int
deriving Repr, DecidableEq

/-- An hourly aggregate row (model HourlyAverage, unique on (pairId, hour)). -/
structure HourlyAggregate where
  pairId : Nat
  hour : Int
  average : ℚ
  high : ℚ
  low : ℚ
  count : Nat
deriving Repr, DecidableEq

/-- The persistent store visible to the verified code paths. -/
structure Db where
  pairs : List Pair
  ticks : List Tick
  aggregates : List HourlyAggregate
deriving Repr, DecidableEq

/-- DataService.getPairBySymbol: `prisma.cryptoPair.findUnique({ where: { symbol } })`. -/
def getPairBySymbol (db : Db) (symbol : String) : Option Pair :=
  db.pairs.find? (fun p => p.symbol == symbol)

/-- PriceUpdateDto: payload handed to DataService.savePrice. -/
structure PriceUpdate where
  symbol : String
  price : ℚ
  volume : Option ℚ
  timestamp : Int
deriving Repr, DecidableEq

/-- DataService.savePrice: resolve the pair (NotFoundException when missing),
then `prisma.price.create` appends the tick. -/
def savePrice (db : Db) (priceData : PriceUpdate) : Except String (Db × Tick) :=
  match getPairBySymbol db priceData.symbol with
  | none => .error ("Cryptocurrency pair " ++ priceData.symbol ++ " not found")
  | some pair =>
    let price : Tick :=
      { pairId := pair.id, price := priceData.price,
        volume := priceData.volume, timestamp := priceData.timestamp }
    .ok ({ db with ticks := db.ticks ++ [price] }, price)

/-- One hour in epoch milliseconds. -/
def MS_PER_HOUR : Int := 3600000

/-- The source's `targetHour.setMinutes(0, 0, 0)` under UTC: zero the
minute/second/millisecond fields, i.e. floor the timestamp to the hour boundary. -/
def floorToHour (t : Int) : Int := t - t.emod MS_PER_HOUR

/-- Insert a tick into a list sorted ascending by timestamp. -/
def insertByTimestamp (t : Tick) : List Tick → List Tick
  | [] => [t]
  | u :: us =>
    if t.timestamp < u.timestamp then t :: u :: us else u :: insertByTimestamp t us

/-- Sort ticks ascending by timestamp (the query's `orderBy: { timestamp: 'asc' }`). -/
def sortByTimestampAsc : List Tick → List Tick
  | [] => []
  | t :: ts => insertByTimestamp t (sortByTimestampAsc ts)

/-- The tick query of calculateHourlyAverage:
`prisma.price.findMany` with `pairId` equal and `timestamp ∈ [hourStart, hourEnd)`,
ordered ascending by timestamp. -/
def queryTicksInHour (db : Db) (pairId : Nat) (hourStart hourEnd : Int) : List Tick :=
  sortByTimestampAsc (db.ticks.filter (fun t =>
    t.pairId == pairId && decide (hourStart ≤ t.timestamp) && decide (t.timestamp < hourEnd)))

/-- The unique key test of the hourly-average upsert (`unique_pair_hour`). -/
def aggMatches (pairId : Nat) (hour : Int) (r : HourlyAggregate) : Bool :=
  r.pairId == pairId && r.hour == hour

/-- The `update` arm of the hourly-average upsert: overwrite the statistics,
keeping the key fields. -/
def updateAggregate (avg hi lo : ℚ) (cnt : Nat) (r : HourlyAggregate) : HourlyAggregate :=
  { r with average := avg, high := hi, low := lo, count := cnt }

/-- `prisma.hourlyAverage.upsert` keyed by `unique_pair_hour (pairId, hour)`:
update the row with that key when one exists, otherwise create it. -/
def upsertHourlyAverage (aggs : List HourlyAggregate) (pairId : Nat) (hour : Int)
    (avg hi lo : ℚ) (cnt : Nat) : List HourlyAggregate :=
  if aggs.any (aggMatches pairId hour) then
    aggs.map (fun r => if aggMatches pairId hour r then updateAggregate avg hi lo cnt r else r)
  else
    aggs ++ [{ pairId := pairId, hour := hour, average := avg, high := hi, low := lo, count := cnt }]

/-- Number of aggregate rows carrying a given (pairId, hour) key. -/
def countAggs (aggs : List HourlyAggregate) (pairId : Nat) (hour : Int) : Nat :=
  aggs.countP (aggMatches pairId hour)

/-- Statistics block of calculateHourlyAverage over the non-empty tick list
`p :: ps`: average is the sum via `reduce((a, b) => a + b, 0)` divided by the
length, high is `Math.max(...priceValues)`, low is `Math.min(...priceValues)`,
count is the number of ticks. -/
def hourAggregate (pairId : Nat) (targetHour : Int) (p : Tick) (ps : List Tick) :
    HourlyAggregate :=
  { pairId := pairId, hour := targetHour,
    average := (((p :: ps).map (fun t => t.price)).foldl (· + ·) 0) /
      ((((p :: ps).map (fun t => t.price)).length : ℕ) : ℚ),
    high := (ps.map (fun t => t.price)).foldl max p.price,
    low := (ps.map (fun t => t.price)).foldl min p.price,
    count := ((p :: ps).map (fun t => t.price)).length }

/-- DataService.calculateHourlyAverage: resolve the pair (NotFoundException when
unknown), floor the target hour, query the hour's ticks; when empty return `none`
without writing; otherwise upsert the aggregate computed by hourAggregate, keyed
by (pairId, targetHour), and return the stored row. `now` stands for the
`new Date()` used when no hour argument is given. -/
def calculateHourlyAverage (db : Db) (symbol : String) (hour : Option Int) (now : Int) :
    Db × Except String (Option HourlyAggregate) :=
  match getPairBySymbol db symbol with
  | none => (db, .error ("Cryptocurrency pair " ++ symbol ++ " not found"))
  | some pair =>
    match queryTicksInHour db pair.id (floorToHour (hour.getD now))
        (floorToHour (hour.getD now) + MS_PER_HOUR) with
    | [] => (db, .ok none)
    | p :: ps =>
      ({ db with aggregates :=
          (upsertHourlyAverage db.aggregates pair.id (floorToHour (hour.getD now))
            (hourAggregate pair.id (floorToHour (hour.getD now)) p ps).average
            (hourAggregate pair.id (floorToHour (hour.getD now)) p ps).high
            (hourAggregate pair.id (floorToHour (hour.getD now)) p ps).low
            (hourAggregate pair.id (floorToHour (hour.getD now)) p ps).count) },
        .ok (some (hourAggregate pair.id (floorToHour (hour.getD now)) p ps)))

/-- IFinnhubTrade: one record of an upstream trade batch. -/
structure Trade where
  s : String
  p : ℚ
  t : Int
  v : ℚ
deriving Repr, DecidableEq

/-- One iteration of the FinnhubService.processTrades loop: map the upstream
symbol through REVERSE_SYMBOL_MAPPING (unknown symbols are logged and skipped),
then savePrice; a thrown error is caught and the loop continues. The second
component records the invocations of CryptoGateway.broadcastPriceUpdate made by
the loop body; the source's loop body contains none, so nothing is ever appended. -/
def processTrade (acc : Db × List PriceUpdate) (trade : Trade) : Db × List PriceUpdate :=
  match REVERSE_SYMBOL_MAPPING trade.s with
  | none => acc
  | some ourSymbol =>
    match savePrice acc.1
        { symbol := ourSymbol, price := trade.p,
          volume := some trade.v, timestamp := trade.t } with
    | .error _ => acc
    | .ok (db', _) => (db', acc.2)

/-- FinnhubService.processTrades: fold the loop body over the batch. -/
def processTrades (db : Db) (trades : List Trade) : Db × List PriceUpdate :=
  trades.foldl processTrade (db, [])

/-- The reconnect-relevant mutable state of FinnhubService. -/
structure FinnhubState where
  reconnectAttempts : Nat
  maxReconnectAttempts : Nat
  isConnecting : Bool
  shouldReconnect : Bool
  hasSocket : Bool
  reconnectTimeoutPending : Bool
deriving Repr, DecidableEq

/-- FinnhubService.scheduleReconnect: give up (schedule nothing) once the attempt
counter has reached the maximum; otherwise increment the counter and schedule a
reconnect after `min(2 ^ attempts * 1000, 60000)` milliseconds. The scheduled
delay is the second component (`none` when giving up). -/
def scheduleReconnect (s : FinnhubState) : FinnhubState × Option Nat :=
  if s.maxReconnectAttempts ≤ s.reconnectAttempts then (s, none)
  else
    let attempts := s.reconnectAttempts + 1
    let delay := min (2 ^ attempts * 1000) 60000
    ({ s with reconnectAttempts := attempts, reconnectTimeoutPending := true }, some delay)

/-- FinnhubService.handleOpen: clear the connecting flag and reset the
reconnect-attempt counter to 0 (subscribeToAll only sends socket frames and does
not touch this state). -/
def handleOpen (s : FinnhubState) : FinnhubState :=
  { s with isConnecting := false, reconnectAttempts := 0 }

/-- FinnhubService.handleClose: clear the connecting flag, drop the socket, and
when `shouldReconnect` is set, call scheduleReconnect. The second component is
the scheduled delay, `none` when no reconnect was scheduled. -/
def handleClose (s : FinnhubState) : FinnhubState × Option Nat :=
  let s1 := { s with isConnecting := false, hasSocket := false }
  if s1.shouldReconnect then scheduleReconnect s1 else (s1, none)

/-- FinnhubService.connect: a no-op when already connecting or already open. -/
def connect (s : FinnhubState) : FinnhubState :=
  if s.isConnecting || s.hasSocket then s
  else { s with isConnecting := true, hasSocket := true }

/-- FinnhubService.reconnect (manual trigger): disconnect, reset the attempt
counter to 0, connect again. -/
def reconnectManually (s : FinnhubState) : FinnhubState :=
  connect { s with hasSocket := false, reconnectAttempts := 0 }

/-- A parsed upstream frame (IFinnhubMessage): a ping keepalive, a trade batch,
or anything else (including frames that fail to parse, which are caught,
logged and dropped). -/
inductive FinnhubMsg where
  | ping : FinnhubMsg
  | trade : List Trade → FinnhubMsg
  | other : FinnhubMsg
deriving Repr, DecidableEq

/-- FinnhubService.handleMessage: ping is a no-op, a trade batch is processed by
processTrades, everything else is dropped. No branch touches the connection
state, which is why it is returned unchanged. -/
def handleMessage (s : FinnhubState) (db : Db) (msg : FinnhubMsg) :
    FinnhubState × Db × List PriceUpdate :=
  match msg with
  | .ping => (s, db, [])
  | .trade data => (s, (processTrades db data).1, (processTrades db data).2)
  | .other => (s, db, [])

/-- Left-pad a numeral to two digits. -/
def pad2 (n : Nat) : String :=
  if n < 10 then "0" ++ toString n else toString n

/-- Left-pad a numeral to three digits. -/
def pad3 (n : Nat) : String :=
  if n < 10 then "00" ++ toString n
  else if n < 100 then "0" ++ toString n
  else toString n

/-- Left-pad a numeral to four digits. -/
def pad4 (n : Nat) : String :=
  if n < 10 then "000" ++ toString n
  else if n < 100 then "00" ++ toString n
  else if n < 1000 then "0" ++ toString n
  else toString n

/-- Gregorian calendar date from days since 1970-01-01 (civil-from-days). -/
def civilFromDays (z0 : Int) : Int × Nat × Nat :=
  let z := z0 + 719468
  let era := z.ediv 146097
  let doe := z - era * 146097
  let yoe := (doe - doe.ediv 1460 + doe.ediv 36524 - doe.ediv 146096).ediv 365
  let doy := doe - (365 * yoe + yoe.ediv 4 - yoe.ediv 100)
  let mp := (5 * doy + 2).ediv 153
  let d := doy - (153 * mp + 2).ediv 5 + 1
  let m := if mp < 10 then mp + 3 else mp - 9
  (yoe + era * 400 + (if m ≤ 2 then 1 else 0), m.toNat, d.toNat)

/-- Date.prototype.toISOString on epoch milliseconds:
"YYYY-MM-DDTHH:mm:ss.sssZ" (UTC, years 0–9999). -/
def toISOString (ms : Int) : String :=
  let day := ms.ediv 86400000
  let msOfDay := (ms.emod 86400000).toNat
  let hh := msOfDay / 3600000
  let mm := msOfDay % 3600000 / 60000
  let ss := msOfDay % 60000 / 1000
  let msec := msOfDay % 1000
  let ymd := civilFromDays day
  pad4 ymd.1.toNat ++ "-" ++ pad2 ymd.2.1 ++ "-" ++ pad2 ymd.2.2 ++ "T" ++
    pad2 hh ++ ":" ++ pad2 mm ++ ":" ++ pad2 ss ++ "." ++ pad3 msec ++ "Z"

/-- The in-memory state of CryptoGateway: the connected-client id set and the
per-client advisory subscription map. Lists model JS Set / Map in insertion
order. -/
structure GatewayState where
  connectedClients : List String
  clientSubscriptions : List (String × List String)
deriving Repr, DecidableEq

/-- JS `Set.add`: append when absent. -/
def setAdd (l : List String) (x : String) : List String :=
  if l.contains x then l else l ++ [x]

/-- JS `Set.delete`. -/
def setDelete (l : List String) (x : String) : List String :=
  l.filter (fun y => y != x)

/-- JS `Map.get`. -/
def mapGet (m : List (String × List String)) (k : String) : Option (List String) :=
  (m.find? (fun e => e.1 == k)).map (fun e => e.2)

/-- JS `Map.set`: overwrite the entry when the key exists, otherwise append. -/
def mapSet (m : List (String × List String)) (k : String) (v : List String) :
    List (String × List String) :=
  if m.any (fun e => e.1 == k) then m.map (fun e => if e.1 == k then (k, v) else e)
  else m ++ [(k, v)]

/-- JS `Map.delete`. -/
def mapDelete (m : List (String × List String)) (k : String) :
    List (String × List String) :=
  m.filter (fun e => e.1 != k)

/-- The welcome event emitted to a newly connected client. -/
structure ConnectedEvent where
  message : String
  clientId : String
  timestamp : String
deriving Repr, DecidableEq

/-- CryptoGateway.handleConnection: register the client id, give it an empty
subscription set, and emit the welcome event (`now` stands for `new Date()`). -/
def handleConnection (g : GatewayState) (clientId : String) (now : Int) :
    GatewayState × ConnectedEvent :=
  ({ connectedClients := setAdd g.connectedClients clientId,
     clientSubscriptions := mapSet g.clientSubscriptions clientId [] },
   { message := "Connected to crypto data stream", clientId := clientId,
     timestamp := toISOString now })

/-- CryptoGateway.handleDisconnect: deregister the client id and discard its
subscription set. -/
def handleDisconnect (g : GatewayState) (clientId : String) : GatewayState :=
  { connectedClients := setDelete g.connectedClients clientId,
    clientSubscriptions := mapDelete g.clientSubscriptions clientId }

/-- The acknowledgment emitted back on subscribe/unsubscribe. -/
structure SubscriptionAck where
  symbols : List String
  message : String
deriving Repr, DecidableEq

/-- CryptoGateway.handleSubscribe: when the client has a registered subscription
set, add the symbols to it and acknowledge; otherwise do nothing and emit
nothing. -/
def handleSubscribe (g : GatewayState) (clientId : String) (symbols : List String) :
    GatewayState × Option SubscriptionAck :=
  match mapGet g.clientSubscriptions clientId with
  | none => (g, none)
  | some clientSubs =>
    ({ g with clientSubscriptions :=
        mapSet g.clientSubscriptions clientId (symbols.foldl setAdd clientSubs) },
     some { symbols := symbols, message := "Successfully subscribed" })

/-- CryptoGateway.handleUnsubscribe: when the client has a registered
subscription set, delete the symbols from it and acknowledge; otherwise do
nothing and emit nothing. -/
def handleUnsubscribe (g : GatewayState) (clientId : String) (symbols : List String) :
    GatewayState × Option SubscriptionAck :=
  match mapGet g.clientSubscriptions clientId with
  | none => (g, none)
  | some clientSubs =>
    ({ g with clientSubscriptions :=
        mapSet g.clientSubscriptions clientId (symbols.foldl setDelete clientSubs) },
     some { symbols := symbols, message := "Successfully unsubscribed" })

/-- The wire form of a priceUpdate event: the payload with the timestamp
serialized by toISOString. -/
structure PriceUpdateWire where
  symbol : String
  price : ℚ
  volume : Option ℚ
  timestamp : String
deriving Repr, DecidableEq

/-- Serialization performed by broadcastPriceUpdate:
`{ ...priceData, timestamp: priceData.timestamp.toISOString() }`. -/
def priceUpdateWire (p : PriceUpdate) : PriceUpdateWire :=
  { symbol := p.symbol, price := p.price, volume := p.volume,
    timestamp := toISOString p.timestamp }

/-- CryptoGateway.broadcastPriceUpdate: `server.emit` delivers the serialized
payload to every connected client, with no per-session subscription filtering.
The result is the delivery list (client id, delivered payload). -/
def broadcastPriceUpdate (g : GatewayState) (priceData : PriceUpdate) :
    List (String × PriceUpdateWire) :=
  g.connectedClients.map (fun clientId => (clientId, priceUpdateWire priceData))

/-- One externally triggered gateway operation. -/
inductive GatewayOp where
  | connect : String → Int → GatewayOp
  | disconnect : String → GatewayOp
  | subscribe : String → List String → GatewayOp
  | unsubscribe : String → List String → GatewayOp
deriving Repr, DecidableEq

/-- Apply one gateway operation to the gateway state. -/
def applyGatewayOp (g : GatewayState) : GatewayOp → GatewayState
  | .connect cid now => (handleConnection g cid now).1
  | .disconnect cid => handleDisconnect g cid
  | .subscribe cid symbols => (handleSubscribe g cid symbols).1
  | .unsubscribe cid symbols => (handleUnsubscribe g cid symbols).1

/-- Run a sequence of gateway operations from the empty state. -/
def runGatewayOps (ops : List GatewayOp) : GatewayState :=
  ops.foldl applyGatewayOp { connectedClients := [], clientSubscriptions := [] }

/-- The registry invariant: the connected-client set and the key set of the
subscription map hold exactly the same client ids. -/
def gatewayInv (g : GatewayState) : Prop :=
  ∀ c : String, c ∈ g.connectedClients ↔ (mapGet g.clientSubscriptions c).isSome

end CryptoDash

namespace CryptoDash

/-- A fold of `max` is at least its initial value. -/
theorem le_foldl_max (l : List ℚ) (a : ℚ) : a ≤ l.foldl max a := by
  induction l generalizing a with
  | nil => exact le_refl a
  | cons x t ih =>
    simp only [List.foldl_cons]
    exact le_trans (le_max_left a x) (ih (max a x))

/-- A fold of `max` bounds every list element from above. -/
theorem foldl_max_ge_mem (l : List ℚ) : ∀ (a x : ℚ), x ∈ l → x ≤ l.foldl max a := by
  induction l with
  | nil => intro a x hx; cases hx
  | cons y t ih =>
    intro a x hx
    simp only [List.foldl_cons]
    rcases List.mem_cons.mp hx with h | h
    · subst h
      exact le_trans (le_max_right a x) (le_foldl_max t (max a x))
    · exact ih (max a y) x h

/-- A fold of `min` is at most its initial value. -/
theorem foldl_min_le (l : List ℚ) (a : ℚ) : l.foldl min a ≤ a := by
  induction l generalizing a with
  | nil => exact le_refl a
  | cons x t ih =>
    simp only [List.foldl_cons]
    exact le_trans (ih (min a x)) (min_le_left a x)

/-- A fold of `min` bounds every list element from below. -/
theorem foldl_min_le_mem (l : List ℚ) : ∀ (a x : ℚ), x ∈ l → l.foldl min a ≤ x := by
  induction l with
  | nil => intro a x hx; cases hx
  | cons y t ih =>
    intro a x hx
    simp only [List.foldl_cons]
    rcases List.mem_cons.mp hx with h | h
    · subst h
      exact le_trans (foldl_min_le t (min a x)) (min_le_right a x)
    · exact ih (min a y) x h

/-- A fold of `(+)` over elements all at most `b` is at most the initial value
plus `length * b`. -/
theorem foldl_add_le (l : List ℚ) (b : ℚ) :
    (∀ x ∈ l, x ≤ b) → ∀ a, l.foldl (· + ·) a ≤ a + l.length * b := by
  induction l with
  | nil => intro _ a; simp
  | cons x t ih =>
    intro hb a
    simp only [List.foldl_cons, List.length_cons]
    have hx : x ≤ b := hb x (List.mem_cons_self x t)
    have ht : ∀ y ∈ t, y ≤ b := fun y hy => hb y (List.mem_cons_of_mem x hy)
    have h1 : List.foldl (· + ·) (a + x) t ≤ (a + x) + t.length * b := ih ht (a + x)
    have h2 : (a + x) + (t.length : ℚ) * b ≤ a + ((t.length : ℚ) + 1) * b := by nlinarith
    calc List.foldl (· + ·) (a + x) t ≤ (a + x) + t.length * b := h1
      _ ≤ a + ((t.length : ℚ) + 1) * b := h2
      _ = a + ((t.length + 1 : ℕ) : ℚ) * b := by push_cast; ring

/-- A fold of `(+)` over elements all at least `b` is at least the initial value
plus `length * b`. -/
theorem le_foldl_add (l : List ℚ) (b : ℚ) :
    (∀ x ∈ l, b ≤ x) → ∀ a, a + l.length * b ≤ l.foldl (· + ·) a := by
  induction l with
  | nil => intro _ a; simp
  | cons x t ih =>
    intro hb a
    simp only [List.foldl_cons, List.length_cons]
    have hx : b ≤ x := hb x (List.mem_cons_self x t)
    have ht : ∀ y ∈ t, b ≤ y := fun y hy => hb y (List.mem_cons_of_mem x hy)
    have h1 : (a + x) + t.length * b ≤ List.foldl (· + ·) (a + x) t := ih ht (a + x)
    have h2 : a + ((t.length : ℚ) + 1) * b ≤ (a + x) + (t.length : ℚ) * b := by nlinarith
    calc a + ((t.length + 1 : ℕ) : ℚ) * b = a + ((t.length : ℚ) + 1) * b := by push_cast; ring
      _ ≤ (a + x) + (t.length : ℚ) * b := h2
      _ ≤ List.foldl (· + ·) (a + x) t := h1

/-- Inversion of calculateHourlyAverage in the successful, non-empty case: it
found the pair, the hour's tick query was non-empty, the returned row carries the
computed statistics, and the store change is exactly the keyed upsert. -/
theorem calcHA_some_inv (db db1 : Db) (symbol : String) (hour : Option Int)
    (now : Int) (agg : HourlyAggregate)
    (h : calculateHourlyAverage db symbol hour now = (db1, .ok (some agg))) :
    ∃ (pair : Pair) (p : Tick) (ps : List Tick),
      getPairBySymbol db symbol = some pair ∧
      queryTicksInHour db pair.id (floorToHour (hour.getD now))
        (floorToHour (hour.getD now) + MS_PER_HOUR) = p :: ps ∧
      agg = hourAggregate pair.id (floorToHour (hour.getD now)) p ps ∧
      db1 = { db with aggregates := (upsertHourlyAverage db.aggregates pair.id
                (floorToHour (hour.getD now)) agg.average agg.high agg.low agg.count) } := by
  unfold calculateHourlyAverage at h
  split at h
  next hp =>
    simp at h
  next pair hp =>
    split at h
    next hq =>
      simp at h
    next p ps hq =>
      simp only [Prod.mk.injEq, Except.ok.injEq, Option.some.injEq] at h
      obtain ⟨hdb, hagg⟩ := h
      exact ⟨pair, p, ps, hp, hq, hagg.symm, by rw [← hagg, ← hdb]⟩

end CryptoDash

namespace CryptoDash

/-- C3: every hourly aggregate computed by calculateHourlyAverage over a
non-empty hour window satisfies low ≤ average ≤ high, and its sample count is at
least 1 (the average being the arithmetic mean of the tick prices, high their
maximum, low their minimum, count their number). -/
theorem hourlyAverage_low_le_average_le_high (db db1 : Db) (symbol : String)
    (hour : Option Int) (now : Int) (agg : HourlyAggregate)
    (h : calculateHourlyAverage db symbol hour now = (db1, .ok (some agg))) :
    agg.low ≤ agg.average ∧ agg.average ≤ agg.high ∧ 1 ≤ agg.count := by
  obtain ⟨pair, p, ps, hp, hq, hagg, hdb⟩ := calcHA_some_inv db db1 symbol hour now agg h
  subst hagg
  simp only [hourAggregate]
  have hnpos : (0 : ℚ) < ((((p :: ps).map (fun t => t.price)).length : ℕ) : ℚ) := by
    simp only [List.length_map, List.length_cons]
    positivity
  refine ⟨?_, ?_, ?_⟩
  · rw [le_div_iff₀ hnpos]
    have hbound : ∀ x ∈ (p :: ps).map (fun t => t.price),
        (ps.map (fun t => t.price)).foldl min p.price ≤ x := by
      intro x hx
      rw [List.map_cons] at hx
      rcases List.mem_cons.mp hx with h1 | h1
      · rw [h1]; exact foldl_min_le _ _
      · exact foldl_min_le_mem _ _ _ h1
    have hsum := le_foldl_add ((p :: ps).map (fun t => t.price))
      ((ps.map (fun t => t.price)).foldl min p.price) hbound 0
    nlinarith [hsum]
  · rw [div_le_iff₀ hnpos]
    have hbound : ∀ x ∈ (p :: ps).map (fun t => t.price),
        x ≤ (ps.map (fun t => t.price)).foldl max p.price := by
      intro x hx
      rw [List.map_cons] at hx
      rcases List.mem_cons.mp hx with h1 | h1
      · rw [h1]; exact le_foldl_max _ _
      · exact foldl_max_ge_mem _ _ _ h1
    have hsum := foldl_add_le ((p :: ps).map (fun t => t.price))
      ((ps.map (fun t => t.price)).foldl max p.price) hbound 0
    nlinarith [hsum]
  · simp

/-- Concrete pair used by the scenario-B style evaluations. -/
def pairB : Pair := { id := 1, symbol := "ETH/USDC", isActive := true }

/-- Concrete store holding three ticks in the hour 2024-01-01T10:00Z. -/
def dbB : Db :=
  { pairs := [pairB],
    ticks := [{ pairId := 1, price := 2500, volume := none, timestamp := 1704103200000 },
              { pairId := 1, price := 2510, volume := some 10, timestamp := 1704103260000 },
              { pairId := 1, price := 2490, volume := none, timestamp := 1704103320000 }],
    aggregates := [] }

/-- The aggregate computed from dbB for hour 2024-01-01T10:00Z. -/
def aggB : HourlyAggregate :=
  { pairId := 1, hour := 1704103200000, average := 2500, high := 2510, low := 2490, count := 3 }

/-- The store dbB after the aggregate upsert. -/
def db1B : Db := { dbB with aggregates := [aggB] }

/-- Evaluation of calculateHourlyAverage on the concrete scenario-B store. -/
theorem calcHA_dbB_eval :
    calculateHourlyAverage dbB "ETH/USDC" (some 1704103200000) 0 =
      (db1B, .ok (some aggB)) := by
  norm_num [calculateHourlyAverage, getPairBySymbol, queryTicksInHour, sortByTimestampAsc,
    insertByTimestamp, floorToHour, MS_PER_HOUR, hourAggregate, upsertHourlyAverage,
    aggMatches, updateAggregate, dbB, db1B, aggB, pairB]

/-- Witness for C3 at the concrete scenario-B input. -/
theorem hourlyAverage_low_le_average_le_high_witness :
    aggB.low ≤ aggB.average ∧ aggB.average ≤ aggB.high ∧ 1 ≤ aggB.count :=
  hourlyAverage_low_le_average_le_high dbB db1B "ETH/USDC" (some 1704103200000) 0 aggB
    calcHA_dbB_eval

/-- C4: when the symbol resolves to a known pair and the target hour window
holds zero ticks, calculateHourlyAverage returns an absent result (not an error)
and leaves the store — in particular the aggregate store — unchanged. -/
theorem emptyHour_no_record (db : Db) (symbol : String) (hour : Option Int)
    (now : Int) (pair : Pair) (hp : getPairBySymbol db symbol = some pair)
    (hq : queryTicksInHour db pair.id (floorToHour (hour.getD now))
        (floorToHour (hour.getD now) + MS_PER_HOUR) = []) :
    calculateHourlyAverage db symbol hour now = (db, .ok none) := by
  simp only [calculateHourlyAverage, hp, hq]

/-- Witness for C4: a store with a known pair and no ticks at all. -/
theorem emptyHour_no_record_witness :
    calculateHourlyAverage { pairs := [pairB], ticks := [], aggregates := [] }
        "ETH/USDC" (some 1704103200000) 0 =
      ({ pairs := [pairB], ticks := [], aggregates := [] }, .ok none) :=
  emptyHour_no_record { pairs := [pairB], ticks := [], aggregates := [] }
    "ETH/USDC" (some 1704103200000) 0 pairB (by decide) (by decide)

end CryptoDash

namespace CryptoDash

/-- C7: calculateHourlyAverage surfaces the NotFound error exactly when the
symbol does not resolve to a known pair, and in that case the store is returned
unchanged (nothing is queried or written before the throw). -/
theorem unknownSymbol_notFound (db : Db) (symbol : String) (hour : Option Int)
    (now : Int) :
    ((∃ e, (calculateHourlyAverage db symbol hour now).2 = .error e) ↔
      getPairBySymbol db symbol = none) ∧
    (getPairBySymbol db symbol = none →
      calculateHourlyAverage db symbol hour now =
        (db, .error ("Cryptocurrency pair " ++ symbol ++ " not found"))) := by
  cases hp : getPairBySymbol db symbol with
  | none =>
    refine ⟨⟨fun _ => rfl, fun _ => ?_⟩, fun _ => ?_⟩
    · exact ⟨"Cryptocurrency pair " ++ symbol ++ " not found",
        by simp [calculateHourlyAverage, hp]⟩
    · simp [calculateHourlyAverage, hp]
  | some pair =>
    refine ⟨⟨?_, fun hno => Option.noConfusion hno⟩,
      fun hno => Option.noConfusion hno⟩
    rintro ⟨e, he⟩
    rcases hq : queryTicksInHour db pair.id (floorToHour (hour.getD now))
        (floorToHour (hour.getD now) + MS_PER_HOUR) with _ | ⟨p, ps⟩ <;>
      simp [calculateHourlyAverage, hp, hq] at he

/-- Witness for C7: an empty store knows no pair, so the call surfaces NotFound
and changes nothing. -/
theorem unknownSymbol_notFound_witness :
    calculateHourlyAverage { pairs := [], ticks := [], aggregates := [] }
        "ETH/USDC" none 1704103200000 =
      ({ pairs := [], ticks := [], aggregates := [] },
        .error ("Cryptocurrency pair " ++ "ETH/USDC" ++ " not found")) :=
  (unknownSymbol_notFound { pairs := [], ticks := [], aggregates := [] }
    "ETH/USDC" none 1704103200000).2 (by decide)

/-- The upsert's update arm never changes the unique key of a row. -/
theorem aggMatches_updateAggregate (pid2 : Nat) (h2 : Int) (avg hi lo : ℚ)
    (cnt : Nat) (r : HourlyAggregate) :
    aggMatches pid2 h2 (updateAggregate avg hi lo cnt r) = aggMatches pid2 h2 r := rfl



/-- Upserting the same key with the same values twice equals upserting once. -/
theorem upsertHourlyAverage_idem (aggs : List HourlyAggregate) (pairId : Nat)
    (hour : Int) (avg hi lo : ℚ) (cnt : Nat) :
    upsertHourlyAverage (upsertHourlyAverage aggs pairId hour avg hi lo cnt)
        pairId hour avg hi lo cnt =
      upsertHourlyAverage aggs pairId hour avg hi lo cnt := by
  set f := fun r => if aggMatches pairId hour r then updateAggregate avg hi lo cnt r else r
    with hf
  set newRow : HourlyAggregate :=
    { pairId := pairId, hour := hour, average := avg, high := hi, low := lo, count := cnt }
    with hnewRow
  have hkeyf : ∀ r, aggMatches pairId hour (f r) = aggMatches pairId hour r := by
    intro r
    by_cases hm : aggMatches pairId hour r = true <;>
      simp [hf, hm, aggMatches_updateAggregate]
  have hff : ∀ r, f (f r) = f r := by
    intro r
    by_cases hm : aggMatches pairId hour r = true
    · have hr : f r = updateAggregate avg hi lo cnt r := by simp [hf, hm]
      have h2 : aggMatches pairId hour (updateAggregate avg hi lo cnt r) = true := by
        rw [aggMatches_updateAggregate]; exact hm
      rw [hr]
      have h3 : f (updateAggregate avg hi lo cnt r) =
          updateAggregate avg hi lo cnt (updateAggregate avg hi lo cnt r) := by
        simp [hf, h2]
      rw [h3]
      rfl
    · have hr : f r = r := by simp [hf, hm]
      rw [hr, hr]
  by_cases hany : aggs.any (aggMatches pairId hour) = true
  · have h1 : upsertHourlyAverage aggs pairId hour avg hi lo cnt = aggs.map f := by
      simp [upsertHourlyAverage, hany, hf]
    have hany2 : (aggs.map f).any (aggMatches pairId hour) = true := by
      rw [List.any_map]
      have hc : aggMatches pairId hour ∘ f = aggMatches pairId hour := funext hkeyf
      rw [hc]
      exact hany
    have h3 : upsertHourlyAverage (aggs.map f) pairId hour avg hi lo cnt =
        (aggs.map f).map f := by
      simp [upsertHourlyAverage, hany2, hf]
    rw [h1, h3, List.map_map]
    have hcomp : f ∘ f = f := funext hff
    rw [hcomp]
  · have hany' : aggs.any (aggMatches pairId hour) = false := by simpa using hany
    have hnew : aggMatches pairId hour newRow = true := by simp [aggMatches, hnewRow]
    have h1 : upsertHourlyAverage aggs pairId hour avg hi lo cnt = aggs ++ [newRow] := by
      simp [upsertHourlyAverage, hany', hnewRow]
    have hany2 : (aggs ++ [newRow]).any (aggMatches pairId hour) = true := by
      rw [List.any_append]
      simp [hnew]
    have h3 : upsertHourlyAverage (aggs ++ [newRow]) pairId hour avg hi lo cnt =
        (aggs ++ [newRow]).map f := by
      simp [upsertHourlyAverage, hany2, hf]
    have h4 : aggs.map f = aggs := by
      have hall := List.any_eq_false.mp hany'
      calc aggs.map f = aggs.map id := by
            refine List.map_congr_left ?_
            intro r hr
            have hfalse : aggMatches pairId hour r = false := by simpa using hall r hr
            simp [hf, hfalse]
        _ = aggs := List.map_id aggs
    have h5 : [newRow].map f = [newRow] := by
      have hfnew : f newRow = updateAggregate avg hi lo cnt newRow := by simp [hf, hnew]
      have hupd : updateAggregate avg hi lo cnt newRow = newRow := rfl
      simp [hfnew, hupd]
    rw [h1, h3, List.map_append, h4, h5]


/-- The keyed upsert preserves "at most one row per (pairId, hour) key". -/
theorem countAggs_upsert_le (aggs : List HourlyAggregate) (pairId : Nat) (hour : Int)
    (avg hi lo : ℚ) (cnt : Nat) (pid2 : Nat) (h2 : Int)
    (hc : countAggs aggs pid2 h2 ≤ 1) :
    countAggs (upsertHourlyAverage aggs pairId hour avg hi lo cnt) pid2 h2 ≤ 1 := by
  unfold countAggs at hc ⊢
  unfold upsertHourlyAverage
  by_cases hany : aggs.any (aggMatches pairId hour) = true
  · simp only [hany, if_true]
    rw [List.countP_map]
    have hpf : aggMatches pid2 h2 ∘
        (fun r => if aggMatches pairId hour r then updateAggregate avg hi lo cnt r else r) =
        aggMatches pid2 h2 := by
      funext r
      by_cases hm : aggMatches pairId hour r = true <;>
        simp [Function.comp, hm, aggMatches_updateAggregate]
    rw [hpf]
    exact hc
  · have hany' : aggs.any (aggMatches pairId hour) = false := by simpa using hany
    simp only [hany', Bool.false_eq_true, if_false]
    rw [List.countP_append]
    by_cases hkey : aggMatches pid2 h2
        { pairId := pairId, hour := hour, average := avg, high := hi, low := lo,
          count := cnt } = true
    · have hpid : pairId = pid2 ∧ hour = h2 := by simpa [aggMatches] using hkey
      obtain ⟨hpid1, hpid2⟩ := hpid
      subst hpid1
      subst hpid2
      have hzero : aggs.countP (aggMatches pairId hour) = 0 := by
        rw [List.countP_eq_zero]
        intro r hr
        exact List.any_eq_false.mp hany' r hr
      rw [hzero]
      simp [List.countP_cons, hkey]
    · have hone : List.countP (aggMatches pid2 h2)
          [{ pairId := pairId, hour := hour, average := avg, high := hi, low := lo, count := cnt }] = 0 := by
        simp [List.countP_cons, hkey]
      rw [hone]
      simpa using hc

/-- C8: recomputing calculateHourlyAverage on the store it just produced (same
ticks underneath) returns the identical aggregate row and leaves the store
unchanged — the keyed upsert overwrites instead of appending — and the
"at most one row per (pairId, hourStart)" property of the aggregate store is
preserved by the computation. -/
theorem recomputeHourlyAverage_idem (db db1 : Db) (symbol : String)
    (hour : Option Int) (now : Int) (agg : HourlyAggregate)
    (h : calculateHourlyAverage db symbol hour now = (db1, .ok (some agg))) :
    calculateHourlyAverage db1 symbol hour now = (db1, .ok (some agg)) ∧
    (∀ (pid2 : Nat) (h2 : Int), countAggs db.aggregates pid2 h2 ≤ 1 →
      countAggs db1.aggregates pid2 h2 ≤ 1) := by
  obtain ⟨pair, p, ps, hp, hq, hagg, hdb⟩ := calcHA_some_inv db db1 symbol hour now agg h
  constructor
  · have hp1 : getPairBySymbol db1 symbol = some pair := by
      unfold getPairBySymbol
      rw [hdb]
      exact hp
    have hq1 : queryTicksInHour db1 pair.id (floorToHour (hour.getD now))
        (floorToHour (hour.getD now) + MS_PER_HOUR) = p :: ps := by
      unfold queryTicksInHour
      rw [hdb]
      exact hq
    subst hagg
    simp only [calculateHourlyAverage, hp1, hq1]
    rw [hdb]
    simp only [upsertHourlyAverage_idem]
  · intro pid2 h2 hc
    rw [hdb]
    exact countAggs_upsert_le db.aggregates pair.id (floorToHour (hour.getD now))
      agg.average agg.high agg.low agg.count pid2 h2 hc

/-- Witness for C8 at the concrete scenario-B input: recomputation returns the
same row and store. -/
theorem recomputeHourlyAverage_idem_witness :
    calculateHourlyAverage db1B "ETH/USDC" (some 1704103200000) 0 =
      (db1B, .ok (some aggB)) :=
  (recomputeHourlyAverage_idem dbB db1B "ETH/USDC" (some 1704103200000) 0 aggB
    calcHA_dbB_eval).1


/-- Multiplication by 1000 distributes over Nat min. -/
theorem min_mul_1000 (a b : Nat) : min (a * 1000) (b * 1000) = min a b * 1000 := by
  rcases Nat.le_total a b with h | h
  · rw [Nat.min_eq_left h, Nat.min_eq_left (Nat.mul_le_mul_right 1000 h)]
  · rw [Nat.min_eq_right h, Nat.min_eq_right (Nat.mul_le_mul_right 1000 h)]

/-- C2: when the call is reconnect attempt n (counter n - 1 beforehand) with
1 ≤ n ≤ maxReconnectAttempts, scheduleReconnect increments the counter to n and
schedules the reconnect after min(2 ^ n, 60) seconds (stored in milliseconds);
and whenever the counter has reached the maximum, no reconnect is scheduled. -/
theorem scheduleReconnect_backoff (s : FinnhubState) (n : Nat) (hn1 : 1 ≤ n)
    (hn2 : n ≤ s.maxReconnectAttempts) (hs : s.reconnectAttempts = n - 1) :
    scheduleReconnect s =
      ({ s with reconnectAttempts := n, reconnectTimeoutPending := true },
        some (min (2 ^ n) 60 * 1000)) ∧
    (∀ s2 : FinnhubState, s2.maxReconnectAttempts ≤ s2.reconnectAttempts →
      scheduleReconnect s2 = (s2, none)) := by
  constructor
  · have hlt : ¬ s.maxReconnectAttempts ≤ s.reconnectAttempts := by omega
    have hn : s.reconnectAttempts + 1 = n := by omega
    have hdelay : min (2 ^ n * 1000) 60000 = min (2 ^ n) 60 * 1000 := by
      have h60 : (60000 : Nat) = 60 * 1000 := by norm_num
      rw [h60, min_mul_1000]
    simp only [scheduleReconnect, hlt, if_false, hn, hdelay]
  · intro s2 h2
    simp [scheduleReconnect, h2]

/-- Witness for C2: attempt 3 out of a maximum of 10 is scheduled 8 seconds out. -/
theorem scheduleReconnect_backoff_witness :
    scheduleReconnect
        { reconnectAttempts := 2, maxReconnectAttempts := 10, isConnecting := false,
          shouldReconnect := true, hasSocket := false, reconnectTimeoutPending := false } =
      ({ reconnectAttempts := 3, maxReconnectAttempts := 10, isConnecting := false,
         shouldReconnect := true, hasSocket := false, reconnectTimeoutPending := true },
        some 8000) :=
  (scheduleReconnect_backoff
    { reconnectAttempts := 2, maxReconnectAttempts := 10, isConnecting := false,
      shouldReconnect := true, hasSocket := false, reconnectTimeoutPending := false }
    3 (by decide) (by decide) (by decide)).1

/-- C9: handleOpen resets the reconnect-attempt counter to 0, while handleClose
never resets it: starting from a positive counter the close handling keeps the
counter nonzero, keeping it unchanged or incrementing it by exactly one, and the
increment happens precisely when the close handling schedules a reconnect. -/
theorem attempts_reset_only_on_open (s : FinnhubState) (h1 : 1 ≤ s.reconnectAttempts) :
    (handleOpen s).reconnectAttempts = 0 ∧
    (handleClose s).1.reconnectAttempts ≠ 0 ∧
    ((handleClose s).1.reconnectAttempts = s.reconnectAttempts ∨
      (handleClose s).1.reconnectAttempts = s.reconnectAttempts + 1) ∧
    ((handleClose s).1.reconnectAttempts = s.reconnectAttempts + 1 ↔
      (handleClose s).2.isSome) := by
  refine ⟨rfl, ?_⟩
  unfold handleClose scheduleReconnect
  by_cases hsr : s.shouldReconnect <;>
    by_cases hmax : s.maxReconnectAttempts ≤ s.reconnectAttempts <;>
      simp [hsr, hmax] <;> omega

/-- An open feed-client state with three recorded reconnect attempts
(scenario D). -/
def closeStateD : FinnhubState :=
  { reconnectAttempts := 3, maxReconnectAttempts := 10, isConnecting := false,
    shouldReconnect := true, hasSocket := true, reconnectTimeoutPending := false }

/-- Witness for C9 at the scenario-D state (counter 3 when the close fires). -/
theorem attempts_reset_only_on_open_witness :
    (handleOpen closeStateD).reconnectAttempts = 0 ∧
    (handleClose closeStateD).1.reconnectAttempts ≠ 0 ∧
    ((handleClose closeStateD).1.reconnectAttempts = closeStateD.reconnectAttempts ∨
      (handleClose closeStateD).1.reconnectAttempts = closeStateD.reconnectAttempts + 1) ∧
    ((handleClose closeStateD).1.reconnectAttempts = closeStateD.reconnectAttempts + 1 ↔
      (handleClose closeStateD).2.isSome) :=
  attempts_reset_only_on_open closeStateD (by decide)


/-- Mapping every element to one fixed value yields a replicate. -/
theorem map_const_replicate (l : List String) (w : PriceUpdateWire) :
    l.map (fun _ => w) = List.replicate l.length w := by
  induction l with
  | nil => rfl
  | cons x t ih => simp [List.replicate_succ, ih]

/-- C5: a tick-update broadcast delivers to exactly the registered sessions, one
delivery per session, each carrying the identical payload with the timestamp
serialized by toISOString (ISO-8601), and the deliveries do not depend on the
sessions' subscription sets. -/
theorem broadcast_fanout (g : GatewayState) (p : PriceUpdate) :
    (broadcastPriceUpdate g p).map Prod.fst = g.connectedClients ∧
    (broadcastPriceUpdate g p).map Prod.snd =
      List.replicate g.connectedClients.length
        { symbol := p.symbol, price := p.price, volume := p.volume,
          timestamp := toISOString p.timestamp } ∧
    (∀ subs : List (String × List String),
      broadcastPriceUpdate { g with clientSubscriptions := subs } p =
        broadcastPriceUpdate g p) := by
  refine ⟨?_, ?_, fun subs => rfl⟩
  · simp only [broadcastPriceUpdate, List.map_map]
    have hc : (Prod.fst ∘ fun clientId => (clientId, priceUpdateWire p)) =
        fun clientId : String => clientId := rfl
    rw [hc, List.map_id']
  · have hw : priceUpdateWire p =
        { symbol := p.symbol, price := p.price, volume := p.volume,
          timestamp := toISOString p.timestamp } := rfl
    rw [← hw]
    simp only [broadcastPriceUpdate, List.map_map, Function.comp]
    exact map_const_replicate g.connectedClients (priceUpdateWire p)

/-- C6: a trade record whose upstream symbol is missing from
REVERSE_SYMBOL_MAPPING is dropped: the batch result is as if the record were not
there (nothing persisted, nothing broadcast, the rest of the batch processed),
and message handling never touches the connection state. -/
theorem unmappedSymbol_skipped (db : Db) (tr : Trade) (rest : List Trade)
    (h : REVERSE_SYMBOL_MAPPING tr.s = none) :
    processTrades db (tr :: rest) = processTrades db rest ∧
    (∀ (s : FinnhubState) (msg : FinnhubMsg), (handleMessage s db msg).1 = s) := by
  constructor
  · simp only [processTrades, List.foldl_cons]
    have hstep : processTrade (db, []) tr = (db, []) := by
      simp [processTrade, h]
    rw [hstep]
  · intro s msg
    cases msg <;> rfl

/-- Witness for C6: a trade for an unknown upstream symbol leaves the batch
result unchanged. -/
theorem unmappedSymbol_skipped_witness :
    processTrades { pairs := [pairB], ticks := [], aggregates := [] }
        [{ s := "UNKNOWN:SYMBOL", p := 2500, t := 1704067200000, v := 1 }] =
      processTrades { pairs := [pairB], ticks := [], aggregates := [] } [] :=
  (unmappedSymbol_skipped { pairs := [pairB], ticks := [], aggregates := [] }
    { s := "UNKNOWN:SYMBOL", p := 2500, t := 1704067200000, v := 1 } []
    (by decide)).1

/-- C1 (scenario A evaluated on the code): processTrades on the trade
`{s: "BINANCE:ETHUSDC", p: 2500.5, v: 100.5, t: 1704067200000}` persists exactly
the expected tick, but the list of CryptoGateway.broadcastPriceUpdate
invocations is empty — FinnhubService.processTrades holds no gateway reference
and never calls the broadcaster, although the repository's own
finnhub.service.spec.ts asserts that the call is made. -/
theorem processTrades_persists_without_broadcast :
    processTrades { pairs := [pairB], ticks := [], aggregates := [] }
        [{ s := "BINANCE:ETHUSDC", p := 2500.5, t := 1704067200000, v := 100.5 }] =
      ({ pairs := [pairB],
         ticks := [{ pairId := 1, price := 2500.5, volume := some 100.5,
                     timestamp := 1704067200000 }],
         aggregates := [] },
       ([] : List PriceUpdate)) := by
  norm_num [processTrades, processTrade, REVERSE_SYMBOL_MAPPING, savePrice,
    getPairBySymbol, pairB]



/-- Membership after the JS-set add. -/
theorem mem_setAdd (l : List String) (x c : String) :
    c ∈ setAdd l x ↔ (c ∈ l ∨ c = x) := by
  unfold setAdd
  by_cases hx : l.contains x = true
  · rw [if_pos hx]
    have hx' : x ∈ l := by simpa using hx
    constructor
    · exact Or.inl
    · rintro (h | rfl)
      · exact h
      · exact hx'
  · rw [if_neg hx]
    simp

/-- Membership after the JS-set delete. -/
theorem mem_setDelete (l : List String) (x c : String) :
    c ∈ setDelete l x ↔ (c ∈ l ∧ c ≠ x) := by
  unfold setDelete
  simp [List.mem_filter]

/-- A map lookup succeeds exactly when an entry with the key is present. -/
theorem mapGet_isSome_iff (m : List (String × List String)) (c : String) :
    (mapGet m c).isSome ↔ ∃ e ∈ m, e.1 = c := by
  simp [mapGet, List.find?_isSome]

/-- The key set after a map set: the written key together with the old keys. -/
theorem exists_key_mapSet (m : List (String × List String)) (k : String)
    (v : List String) (c : String) :
    (∃ e ∈ mapSet m k v, e.1 = c) ↔ (c = k ∨ ∃ e ∈ m, e.1 = c) := by
  unfold mapSet
  by_cases hany : m.any (fun e => e.1 == k) = true
  · rw [if_pos hany]
    have hkeys : ∀ e : String × List String,
        ((if e.1 == k then (k, v) else e) : String × List String).1 = e.1 := by
      intro e
      by_cases he : (e.1 == k) = true
      · rw [if_pos he]
        exact (beq_iff_eq.mp he).symm
      · rw [if_neg (by simp_all)]
    constructor
    · rintro ⟨e, he, hec⟩
      rcases List.mem_map.mp he with ⟨e0, he0, rfl⟩
      exact Or.inr ⟨e0, he0, by rw [← hkeys e0]; exact hec⟩
    · rintro (hck | ⟨e, he, hec⟩)
      · rcases List.any_eq_true.mp hany with ⟨e0, he0, he0k⟩
        refine ⟨_, List.mem_map_of_mem _ he0, ?_⟩
        rw [hkeys e0]
        exact (beq_iff_eq.mp he0k).trans hck.symm
      · exact ⟨_, List.mem_map_of_mem _ he, by rw [hkeys e]; exact hec⟩
  · rw [if_neg hany]
    constructor
    · rintro ⟨e, he, hec⟩
      rcases List.mem_append.mp he with h1 | h1
      · exact Or.inr ⟨e, h1, hec⟩
      · refine Or.inl ?_
        have he2 : e = (k, v) := by simpa using h1
        rw [he2] at hec
        exact hec.symm
    · rintro (hck | ⟨e, he, hec⟩)
      · exact ⟨(k, v), List.mem_append.mpr (Or.inr (by simp)), hck.symm⟩
      · exact ⟨e, List.mem_append.mpr (Or.inl he), hec⟩

/-- The key set after a map delete: the old keys with the deleted key removed. -/
theorem exists_key_mapDelete (m : List (String × List String)) (k c : String) :
    (∃ e ∈ mapDelete m k, e.1 = c) ↔ ((∃ e ∈ m, e.1 = c) ∧ c ≠ k) := by
  unfold mapDelete
  constructor
  · rintro ⟨e, he, hec⟩
    rcases List.mem_filter.mp he with ⟨hem, hek⟩
    have hek' : e.1 ≠ k := by simpa using hek
    exact ⟨⟨e, hem, hec⟩, by rw [← hec]; exact hek'⟩
  · rintro ⟨⟨e, hem, hec⟩, hck⟩
    refine ⟨e, List.mem_filter.mpr ⟨hem, ?_⟩, hec⟩
    have hek : e.1 ≠ k := by rw [hec]; exact hck
    simpa using hek

/-- Setting a key and looking it up yields the written value. -/
theorem mapGet_cons_ne (e : String × List String) (es : List (String × List String))
    (k : String) (he : (e.1 == k) = false) : mapGet (e :: es) k = mapGet es k := by
  unfold mapGet
  rw [List.find?_cons_of_neg _ (by simp [he])]

/-- Setting a fresh-headed map: the head entry is left alone. -/
theorem mapSet_cons_ne (e : String × List String) (es : List (String × List String))
    (k : String) (v : List String) (he : (e.1 == k) = false) :
    mapSet (e :: es) k v = e :: mapSet es k v := by
  have hfe : (if (e.1 == k) = true then ((k, v) : String × List String) else e) = e :=
    if_neg (by simp [he])
  have hbeta : (fun x : String × List String => if x.1 == k then (k, v) else x) e = e := hfe
  unfold mapSet
  by_cases hany : (es.any (fun x => x.1 == k)) = true
  · rw [if_pos (by simp [List.any_cons, hany]), if_pos hany, List.map_cons, hfe]
  · have h2 : es.any (fun x => x.1 == k) = false := (Bool.not_eq_true _) ▸ hany
    have h3 : ((e :: es).any (fun x => x.1 == k)) = false := by
      rw [List.any_cons, he, h2]
      rfl
    rw [if_neg (by rw [h3]; exact Bool.false_ne_true), if_neg hany]
    rfl

/-- Looking up the key just written by a map set yields the written value. -/
theorem mapGet_mapSet_self (m : List (String × List String)) (k : String)
    (v : List String) : mapGet (mapSet m k v) k = some v := by
  induction m with
  | nil => simp [mapSet, mapGet]
  | cons e es ih =>
    by_cases he : (e.1 == k) = true
    · have hany : ((e :: es).any (fun x => x.1 == k)) = true := by
        simp [List.any_cons, he]
      have hbeta2 : (if (e.1 == k) = true then ((k, v) : String × List String) else e) =
          (k, v) := if_pos he
      unfold mapSet
      rw [if_pos hany, List.map_cons, hbeta2]
      unfold mapGet
      rw [List.find?_cons_of_pos _ (by simp)]
      rfl
    · have he' : (e.1 == k) = false := by simpa using he
      rw [mapSet_cons_ne e es k v he', mapGet_cons_ne e _ k he']
      exact ih

/-- Looking up a key just deleted from a map yields nothing. -/
theorem mapGet_mapDelete_self (m : List (String × List String)) (k : String) :
    mapGet (mapDelete m k) k = none := by
  unfold mapGet mapDelete
  have hfind : List.find? (fun e => e.1 == k) (m.filter (fun e => e.1 != k)) = none := by
    rw [List.find?_eq_none]
    intro e he
    rcases List.mem_filter.mp he with ⟨_, hek⟩
    simpa using hek
  simp [hfind]

/-- Every single gateway operation preserves the registry invariant. -/
theorem gatewayInv_applyOp (g : GatewayState) (op : GatewayOp) (hg : gatewayInv g) :
    gatewayInv (applyGatewayOp g op) := by
  cases op with
  | connect cid now =>
    intro c
    show c ∈ setAdd g.connectedClients cid ↔
      (mapGet (mapSet g.clientSubscriptions cid []) c).isSome
    rw [mem_setAdd, mapGet_isSome_iff, exists_key_mapSet, ← mapGet_isSome_iff, ← hg c]
    tauto
  | disconnect cid =>
    intro c
    show c ∈ setDelete g.connectedClients cid ↔
      (mapGet (mapDelete g.clientSubscriptions cid) c).isSome
    rw [mem_setDelete, mapGet_isSome_iff, exists_key_mapDelete, ← mapGet_isSome_iff, ← hg c]
  | subscribe cid syms =>
    intro c
    simp only [applyGatewayOp]
    cases hsub : mapGet g.clientSubscriptions cid with
    | none =>
      simp only [handleSubscribe, hsub]
      exact hg c
    | some subs0 =>
      simp only [handleSubscribe, hsub]
      rw [mapGet_isSome_iff, exists_key_mapSet, ← mapGet_isSome_iff, ← hg c]
      constructor
      · exact Or.inr
      · rintro (hck | h)
        · subst hck
          exact (hg c).mpr (by rw [hsub]; rfl)
        · exact h
  | unsubscribe cid syms =>
    intro c
    simp only [applyGatewayOp]
    cases hsub : mapGet g.clientSubscriptions cid with
    | none =>
      simp only [handleUnsubscribe, hsub]
      exact hg c
    | some subs0 =>
      simp only [handleUnsubscribe, hsub]
      rw [mapGet_isSome_iff, exists_key_mapSet, ← mapGet_isSome_iff, ← hg c]
      constructor
      · exact Or.inr
      · rintro (hck | h)
        · subst hck
          exact (hg c).mpr (by rw [hsub]; rfl)
        · exact h

/-- Any run from the empty gateway state satisfies the registry invariant. -/
theorem gatewayInv_runOps (ops : List GatewayOp) : gatewayInv (runGatewayOps ops) := by
  have hstep : ∀ (l : List GatewayOp) (g : GatewayState), gatewayInv g →
      gatewayInv (l.foldl applyGatewayOp g) := by
    intro l
    induction l with
    | nil => intro g hg; exact hg
    | cons op t ih =>
      intro g hg
      exact ih _ (gatewayInv_applyOp g op hg)
  exact hstep ops _ (fun c => by simp [mapGet])



/-- C10: after any sequence of gateway operations from the empty state, the
connected-client id set and the key set of the subscription map agree; connect
registers the client id in both with an empty subscription set, disconnect
removes it from both, and subscribe/unsubscribe for a client id with no
registered subscription set mutate nothing and emit no acknowledgment. -/
theorem gateway_registry_consistent (ops : List GatewayOp) (g : GatewayState)
    (cid : String) (symbols : List String) (now : Int)
    (hg : g = runGatewayOps ops)
    (hnone : mapGet g.clientSubscriptions cid = none) :
    gatewayInv g ∧
    (cid ∈ (handleConnection g cid now).1.connectedClients ∧
      mapGet (handleConnection g cid now).1.clientSubscriptions cid = some []) ∧
    (cid ∉ (handleDisconnect g cid).connectedClients ∧
      mapGet (handleDisconnect g cid).clientSubscriptions cid = none) ∧
    handleSubscribe g cid symbols = (g, none) ∧
    handleUnsubscribe g cid symbols = (g, none) := by
  refine ⟨hg ▸ gatewayInv_runOps ops, ⟨?_, ?_⟩, ⟨?_, ?_⟩, ?_, ?_⟩
  · exact (mem_setAdd _ _ _).mpr (Or.inr rfl)
  · exact mapGet_mapSet_self _ _ _
  · intro hmem
    exact ((mem_setDelete _ _ _).mp hmem).2 rfl
  · exact mapGet_mapDelete_self _ _
  · simp [handleSubscribe, hnone]
  · simp [handleUnsubscribe, hnone]

/-- A concrete operation sequence: two connects, one subscribe, one disconnect. -/
def opsW : List GatewayOp :=
  [.connect "alice" 0, .subscribe "alice" ["ETH/USDC"], .connect "bob" 0,
   .disconnect "bob"]

/-- Witness for C10 at the concrete operation sequence, probing the unregistered
client id "carol". -/
theorem gateway_registry_consistent_witness :
    gatewayInv (runGatewayOps opsW) ∧
    ("carol" ∈ (handleConnection (runGatewayOps opsW) "carol" 0).1.connectedClients ∧
      mapGet (handleConnection (runGatewayOps opsW) "carol" 0).1.clientSubscriptions
        "carol" = some []) ∧
    ("carol" ∉ (handleDisconnect (runGatewayOps opsW) "carol").connectedClients ∧
      mapGet (handleDisconnect (runGatewayOps opsW) "carol").clientSubscriptions
        "carol" = none) ∧
    handleSubscribe (runGatewayOps opsW) "carol" ["ETH/USDC"] =
      (runGatewayOps opsW, none) ∧
    handleUnsubscribe (runGatewayOps opsW) "carol" ["ETH/USDC"] =
      (runGatewayOps opsW, none) :=
  gateway_registry_consistent opsW (runGatewayOps opsW) "carol" ["ETH/USDC"] 0 rfl
    (by decide)



/-- A gateway state with two registered sessions. -/
def gW : GatewayState :=
  { connectedClients := ["s1", "s2"], clientSubscriptions := [("s1", []), ("s2", ["ETH/BTC"])] }

/-- The scenario-A payload. -/
def pW : PriceUpdate :=
  { symbol := "ETH/USDC", price := 2500.5, volume := some 100.5,
    timestamp := 1704067200000 }

/-- Witness for C5: two registered sessions receive exactly two identical
serialized deliveries. -/
theorem broadcast_fanout_witness :
    (broadcastPriceUpdate gW pW).map Prod.fst = gW.connectedClients ∧
    (broadcastPriceUpdate gW pW).map Prod.snd =
      List.replicate gW.connectedClients.length
        { symbol := pW.symbol, price := pW.price, volume := pW.volume,
          timestamp := toISOString pW.timestamp } :=
  ⟨(broadcast_fanout gW pW).1, (broadcast_fanout gW pW).2.1⟩

end CryptoDash
